import Mathlib

/-!
Verification development for the aethelgard repository.

Shallow embedding of the components the claims concern:
broker backends (src/aethelgard/brokers/in_memory.py, redis_broker.py),
the edge node loop (src/aethelgard/node.py), the HTTP client transport
(src/aethelgard/transports/httpx_client.py), the semantic firewall
(src/aethelgard/firewall/litellm_firewall.py), the ingestion fusion step
(src/pipeline/generate_embeddings.py), and the synthetic-corpus tooling
(src/pipeline/generate_pipeline.py, preprocess_batch.py,
postprocess_batch.py).
-/

namespace Aethelgard

/-- A queued task, the dict with keys request_id and query_vector built in
both brokers.  Vector entries are modelled as rationals. -/
structure Task where
  request_id : String
  query_vector : List Rat
deriving DecidableEq, Repr

instance : Inhabited Task := ⟨⟨"", []⟩⟩

/-- An insight record, the dict with keys client_id and insight appended by
save_insight in both brokers. -/
structure InsightRec where
  client_id : String
  insight : String
deriving DecidableEq, Repr

/-! InMemoryBroker (src/aethelgard/brokers/in_memory.py).
Its two dicts are modelled as total functions defaulting to the empty list,
matching self.queues.get(client_id, []) and self.insights.get(request_id, []).
The asyncio lock serialises operations, so each operation is one atomic state
transition. -/

structure InMemoryBroker where
  queues : String → List Task
  insights : String → List InsightRec

def InMemoryBroker.init : InMemoryBroker := ⟨fun _ => [], fun _ => []⟩

def InMemoryBroker.enqueue_query (b : InMemoryBroker) (client_id request_id : String)
    (query_vector : List Rat) : InMemoryBroker :=
  { b with queues := fun c =>
      if c = client_id then b.queues client_id ++ [⟨request_id, query_vector⟩]
      else b.queues c }

/-- dequeue_queries returns the pending list and clears it in the same locked
step. -/
def InMemoryBroker.dequeue_queries (b : InMemoryBroker) (client_id : String) :
    List Task × InMemoryBroker :=
  (b.queues client_id,
   { b with queues := fun c => if c = client_id then [] else b.queues c })

def InMemoryBroker.save_insight (b : InMemoryBroker) (request_id client_id insight : String) :
    InMemoryBroker :=
  { b with insights := fun r =>
      if r = request_id then b.insights request_id ++ [⟨client_id, insight⟩]
      else b.insights r }

def InMemoryBroker.get_consensus (b : InMemoryBroker) (request_id : String) :
    List InsightRec :=
  b.insights request_id

/-! RedisBroker (src/aethelgard/brokers/redis_broker.py).
The three key families queue:c, processing:c and request:r:insights have
pairwise distinct literal prefixes (and the client/request id occupies the same
position in each), so the flat Redis keyspace is modelled as three separate
maps.  A Redis list is modelled head-first: index 0 (the LPUSH end) is the list
head.  decode_responses plus the json round trip are the identity here, so
elements are stored directly as Task / InsightRec values. -/

structure RedisBroker where
  queues : String → List Task
  processing : String → List Task
  insights : String → List InsightRec

def RedisBroker.init : RedisBroker := ⟨fun _ => [], fun _ => [], fun _ => []⟩

/-- enqueue_query performs LPUSH queue:client, prepending at the head. -/
def RedisBroker.enqueue_query (b : RedisBroker) (client_id request_id : String)
    (query_vector : List Rat) : RedisBroker :=
  { b with queues := fun c =>
      if c = client_id then ⟨request_id, query_vector⟩ :: b.queues client_id
      else b.queues c }

/-- RPOP: removes and returns the last (tail, Redis index -1) element. -/
def rpop {α : Type} : List α → Option (α × List α)
  | [] => none
  | x :: xs =>
    match rpop xs with
    | none => some (x, ([] : List α))
    | some (y, rest) => some (y, x :: rest)

/-- The while-True loop of dequeue_queries: each iteration performs
LMOVE source processing RIGHT LEFT, i.e. pops the tail of the source list and
pushes it onto the head of the processing list, until the source is empty.
The loop removes one element per iteration, so running it with fuel equal to
the initial queue length is exact; drainGo_spec below proves the closed form,
confirming the fuel never runs out early.  Returns the collected tasks in pop
order together with the final processing list. -/
def drainGo : Nat → List Task → List Task → List Task × List Task
  | 0, _, p => ([], p)
  | fuel + 1, q, p =>
    match rpop q with
    | none => ([], p)
    | some (t, q2) =>
      let r := drainGo fuel q2 (t :: p)
      (t :: r.1, r.2)

def drainLoop (q p : List Task) : List Task × List Task := drainGo q.length q p

def RedisBroker.dequeue_queries (b : RedisBroker) (client_id : String) :
    List Task × RedisBroker :=
  let r := drainLoop (b.queues client_id) (b.processing client_id)
  (r.1,
   { b with
      queues := fun c => if c = client_id then [] else b.queues c,
      processing := fun c => if c = client_id then r.2 else b.processing c })

/-- ack scans processing:client from the head (LRANGE 0 -1 order) for the
first task whose request_id matches and removes one occurrence of it (LREM
count 1, which removes the head-most equal element; identical serialised
values are indistinguishable, so the net effect is removing the first
matching element). -/
def ackRemove (request_id : String) : List Task → List Task
  | [] => []
  | t :: rest =>
    if t.request_id = request_id then rest else t :: ackRemove request_id rest

def RedisBroker.ack (b : RedisBroker) (client_id request_id : String) : RedisBroker :=
  { b with processing := fun c =>
      if c = client_id then ackRemove request_id (b.processing client_id)
      else b.processing c }

/-- save_insight performs LPUSH request:id:insights. -/
def RedisBroker.save_insight (b : RedisBroker) (request_id client_id insight : String) :
    RedisBroker :=
  { b with insights := fun r =>
      if r = request_id then ⟨client_id, insight⟩ :: b.insights request_id
      else b.insights r }

/-- get_consensus performs LRANGE 0 -1, returning the list head to tail, i.e.
most recently pushed first. -/
def RedisBroker.get_consensus (b : RedisBroker) (request_id : String) :
    List InsightRec :=
  b.insights request_id

/-! Operation traces over a broker, for the queue-related claims. -/

inductive BrokerOp where
  | enq (client_id request_id : String) (query_vector : List Rat)
  | deq (client_id : String)
deriving DecidableEq, Repr

def InMemoryBroker.exec (b : InMemoryBroker) : List BrokerOp → InMemoryBroker
  | [] => b
  | BrokerOp.enq c r v :: ops => (b.enqueue_query c r v).exec ops
  | BrokerOp.deq c :: ops => (b.dequeue_queries c).2.exec ops

def RedisBroker.exec (b : RedisBroker) : List BrokerOp → RedisBroker
  | [] => b
  | BrokerOp.enq c r v :: ops => (b.enqueue_query c r v).exec ops
  | BrokerOp.deq c :: ops => (b.dequeue_queries c).2.exec ops

/-- Specification-side description (from the words of the spec, independent of
either backend): the tasks enqueued for client c since the previous dequeue
for c, in enqueue (FIFO) order.  acc is the pending list at the start of the
op sequence. -/
def pendingFrom (c : String) (acc : List Task) : List BrokerOp → List Task
  | [] => acc
  | BrokerOp.enq c2 r v :: ops =>
      pendingFrom c (if c2 = c then acc ++ [⟨r, v⟩] else acc) ops
  | BrokerOp.deq c2 :: ops =>
      pendingFrom c (if c2 = c then [] else acc) ops

def pendingSpec (c : String) (ops : List BrokerOp) : List Task := pendingFrom c [] ops

/-! Insight-save traces, for the consensus claim. -/

structure SaveOp where
  request_id : String
  client_id : String
  insight : String
deriving DecidableEq, Repr

def InMemoryBroker.execSaves (b : InMemoryBroker) : List SaveOp → InMemoryBroker
  | [] => b
  | s :: ops => (b.save_insight s.request_id s.client_id s.insight).execSaves ops

def RedisBroker.execSaves (b : RedisBroker) : List SaveOp → RedisBroker
  | [] => b
  | s :: ops => (b.save_insight s.request_id s.client_id s.insight).execSaves ops

/-- Specification-side description: the insight records submitted for request
r, in submission order. -/
def savesFor (r : String) (ops : List SaveOp) : List InsightRec :=
  (ops.filter (fun s => s.request_id = r)).map (fun s => ⟨s.client_id, s.insight⟩)

/-! LiteLLMFirewall.sanitize (src/aethelgard/firewall/litellm_firewall.py). -/

/-- The exact value of json.dumps applied to the dict with key msg and value
No local matches found. (default separators put one space after the colon). -/
def NO_MATCH_RESPONSE : String := "\x7b\"msg\": \"No local matches found.\"\x7d"

/-- Shallow embedding of LiteLLMFirewall.sanitize.  retrieved is the value
produced by retriever_fn for the query vector (none models Python None);
render models self.template.render and llm models the call_llm middleware
call on the rendered prompt.  The Boolean records whether call_llm was
invoked.  Python tests the retrieved value with if not raw_text, which is
true for both None and the empty string. -/
def sanitize (retrieved : Option String) (render : String → String)
    (llm : String → String) : String × Bool :=
  match retrieved with
  | none => (NO_MATCH_RESPONSE, false)
  | some raw_text =>
    if raw_text = "" then (NO_MATCH_RESPONSE, false)
    else (llm (render raw_text), true)

/-! Node.heartbeat_loop (src/aethelgard/node.py).

Control flow per task, read off the source:
  try:     insight = await search_fn(vector)           (may raise)
           if insight is not None: submit_insight(..)  (may raise)
  except Exception: log; continue                      (exception swallowed)
  finally: await transport.ack(client_id, req_id)      (always runs; its own
           exception propagates out of the loop)
The model records the calls made, in order, as events tagged with the position
of the task inside the polled cycle. -/

/-- Outcome of the injected search capability on one task: a returned string
(Python checks insight is not None, so the empty string still submits), a
None result, or a raised exception. -/
inductive SearchOutcome where
  | found (insight : String)
  | noMatch
  | fails
deriving DecidableEq, Repr

/-- Calls the loop makes while handling the task at cycle position i. -/
inductive NodeEv where
  | search (i : Nat)
  | submit (i : Nat)
  | ack (i : Nat)
deriving DecidableEq, Repr

/-- One task of the cycle.  The try block emits the search call and, when the
search returned a value, the submit call; its raised-or-not flag (search
raised, or transport submit raised) is swallowed by the except clause after
logging.  The finally clause then always emits the ack call; only an
exception raised by ack itself escapes, which the returned Boolean reports. -/
def processTask (i : Nat) (so : SearchOutcome) (submitFails ackFails : Bool) :
    List NodeEv × Bool :=
  let tryR : List NodeEv × Bool :=
    match so with
    | SearchOutcome.found _ => ([NodeEv.search i, NodeEv.submit i], submitFails)
    | SearchOutcome.noMatch => ([NodeEv.search i], false)
    | SearchOutcome.fails => ([NodeEv.search i], true)
  (tryR.1 ++ [NodeEv.ack i], ackFails)

/-- Processes the tasks at cycle positions i, i+1, ..., i+k-1 sequentially;
stops at (and reports) the first task whose ack raised, leaving the later
tasks untouched. -/
def runTasksFrom (B : Nat → SearchOutcome) (submitFails ackFails : Nat → Bool) :
    Nat → Nat → List NodeEv × Option Nat
  | _, 0 => ([], none)
  | i, k + 1 =>
    let r := processTask i (B i) (submitFails i) (ackFails i)
    if r.2 then (r.1, some i)
    else
      let rest := runTasksFrom B submitFails ackFails (i + 1) k
      (r.1 ++ rest.1, rest.2)

/-- One polling cycle of heartbeat_loop over n delivered tasks. -/
def runCycle (B : Nat → SearchOutcome) (submitFails ackFails : Nat → Bool)
    (n : Nat) : List NodeEv × Option Nat :=
  runTasksFrom B submitFails ackFails 0 n

/-- How an iteration of the perpetual loop can end it. -/
inductive LoopExit where
  | pollError (cycle : Nat)
  | ackError (cycle : Nat) (task : Nat)
deriving DecidableEq, Repr

/-- Runs up to fuel iterations of the while-True loop starting at iteration
index c.  Each iteration polls (poll_tasks may raise, uncontained) and then
processes the polled cycle; an exception escaping either call propagates out
of heartbeat_loop, ending the loop.  none means the loop is still running
after fuel iterations; the real loop never returns normally. -/
def heartbeat (pollFails : Nat → Bool) (taskCount : Nat → Nat)
    (B : Nat → Nat → SearchOutcome) (submitFails ackFails : Nat → Nat → Bool) :
    Nat → Nat → Option LoopExit
  | _, 0 => none
  | c, fuel + 1 =>
    if pollFails c then some (LoopExit.pollError c)
    else
      match (runCycle (B c) (submitFails c) (ackFails c) (taskCount c)).2 with
      | some t => some (LoopExit.ackError c t)
      | none => heartbeat pollFails taskCount B submitFails ackFails (c + 1) fuel

/-! HttpxClientTransport.poll_tasks (src/aethelgard/transports/httpx_client.py).

The try block catches only httpx.RequestError (network-level failures of the
GET).  response.raise_for_status raises httpx.HTTPStatusError, which is not a
RequestError, for any non-2xx response, and therefore escapes to the caller.
On a 2xx response the body dict is read with .get, defaulting to []. -/

/-- Outcome of the underlying GET call: a network-level failure, or a
completed HTTP response with its status code and the parsed pending_tasks
value (none when the key is absent). -/
inductive PollOutcome where
  | requestError
  | response (status : Nat) (pending : Option (List Task))
deriving DecidableEq, Repr

def poll_tasks : PollOutcome → Except String (List Task)
  | PollOutcome.requestError => Except.ok []
  | PollOutcome.response status pending =>
    if 200 ≤ status ∧ status ≤ 299 then Except.ok (pending.getD [])
    else Except.error "HTTPStatusError"

/-! Method tables, for the availability-of-ack claim.  Each list holds exactly
the method names defined in the named class body (or invoked on the named
collaborator), transcribed from the source files. -/

/-- Methods defined on InMemoryBroker (src/aethelgard/brokers/in_memory.py). -/
def inMemoryBrokerPyMethods : List String :=
  ["__init__", "enqueue_query", "dequeue_queries", "save_insight", "get_consensus"]

/-- Methods defined on RedisBroker (src/aethelgard/brokers/redis_broker.py). -/
def redisBrokerPyMethods : List String :=
  ["__init__", "enqueue_query", "dequeue_queries", "ack", "save_insight", "get_consensus"]

/-- Abstract methods declared on BaseTaskBroker (src/aethelgard/core/broker.py). -/
def baseTaskBrokerPyMethods : List String :=
  ["enqueue_query", "dequeue_queries", "save_insight", "get_consensus"]

/-- Abstract methods declared on BaseClientTransport (src/aethelgard/core/transport.py). -/
def baseClientTransportPyMethods : List String :=
  ["poll_tasks", "submit_insight"]

/-- Methods defined on HttpxClientTransport (src/aethelgard/transports/httpx_client.py). -/
def httpxClientTransportPyMethods : List String :=
  ["__init__", "poll_tasks", "submit_insight"]

/-- Methods defined on InMemoryClientTransport (src/samples/01_local_simulation.py). -/
def inMemoryClientTransportPyMethods : List String :=
  ["__init__", "poll_tasks", "submit_insight"]

/-- Broker methods invoked by the endpoint handlers in
src/aethelgard/transports/fastapi_server.py. -/
def fastapiServerBrokerCalls : List String :=
  ["enqueue_query", "dequeue_queries", "save_insight", "ack", "get_consensus"]

/-- Transport methods invoked by Node.heartbeat_loop (src/aethelgard/node.py). -/
def nodeTransportCalls : List String :=
  ["poll_tasks", "submit_insight", "ack"]

/-! LocalIntelligenceNode fuse of vectors (src/pipeline/generate_embeddings.py).
Floating-point arithmetic is idealised as exact real arithmetic; the claim
allows floating tolerance. -/

/-- np.linalg.norm with default arguments: the Euclidean norm. -/
noncomputable def l2norm (v : List ℝ) : ℝ :=
  Real.sqrt (v.map (fun x => x ^ 2)).sum

/-- Elementwise division of a vector by its Euclidean norm, as in
text_vec / np.linalg.norm(text_vec). -/
noncomputable def l2normalize (v : List ℝ) : List ℝ :=
  v.map (fun x => x / l2norm v)

/-- The body of _fuse_vectors: normalise each modality, then concatenate
image first, text second. -/
noncomputable def fuse_vectors (text_vec image_vec : List ℝ) : List ℝ :=
  l2normalize image_vec ++ l2normalize text_vec

/-! Synthetic-corpus tooling (src/pipeline/generate_pipeline.py,
preprocess_batch.py, postprocess_batch.py). -/

def HOSPITALS : List String := ["Hospital_A", "Hospital_B"]

def BLIND_SPOT_DISEASE : String := "Consolidation"

def TARGET_PATHOLOGIES : List String :=
  ["Atelectasis", "Cardiomegaly", "Consolidation", "Edema", "Pleural Effusion"]

/-- ChexpertImageRecord (generate_pipeline.py); the dict form used by
preprocess_batch.py has the same fields. -/
structure ChexpertImageRecord where
  original_path : String
  pict_name : String
  positive_findings : List String
  negative_findings : List String
  uncertain_findings : List String
deriving DecidableEq, Repr

structure ChexpertPatient where
  patient_id : String
  sex : String
  age : String
  images : List ChexpertImageRecord
deriving DecidableEq, Repr

/-- all_patient_pathologies in generate_dataset: the union (a Python set; we
keep the concatenation, membership agrees) of positive findings over all of
the images of one patient. -/
def allPatientPathologies (p : ChexpertPatient) : List String :=
  p.images.flatMap (fun img => img.positive_findings)

/-- Silo routing in generate_dataset: a patient with any positive blind-spot
finding goes to Hospital_B, anyone else to random.choice(HOSPITALS), modelled
by an arbitrary index rand into HOSPITALS. -/
def routePerRecord (p : ChexpertPatient) (rand : Nat) : String :=
  if BLIND_SPOT_DISEASE ∈ allPatientPathologies p then "Hospital_B"
  else HOSPITALS.getD (rand % HOSPITALS.length) ""

/-- A batch_metadata.json entry written by preprocess_batch.py.  Note the
field named all_pathologies receives the positive_findings of one single
image, not of the whole patient. -/
structure MetaEntry where
  patient_id : String
  image_reference : String
  original_path : String
  all_pathologies : List String
deriving DecidableEq, Repr

/-- The metadata entries written by main in preprocess_batch.py, in line
order: one entry per (patient, image), iterating patients then their images,
in step with the request lines written to batch_input.jsonl. -/
def preprocessMeta (patients : List ChexpertPatient) : List MetaEntry :=
  patients.flatMap (fun p =>
    p.images.map (fun img =>
      { patient_id := p.patient_id
        image_reference := p.patient_id ++ "_" ++ img.pict_name ++ ".jpg"
        original_path := img.original_path
        all_pathologies := img.positive_findings }))

/-- The index-to-entry map: the dict is keyed by str(line_index) for the
consecutive zero-based line indices; str is injective on naturals, so the
model keys by the index itself. -/
def metadataMap (patients : List ChexpertPatient) : List (Nat × MetaEntry) :=
  (preprocessMeta patients).enum

/-- run_inference in postprocess_batch.py: one POST per input line, in order.
On a completed call the newline-stripped response text is written as one line
of results.jsonl; on a network exception the except branch only prints, so
NO line is written for that request.  outcomes lists each request's outcome
in input order, none modelling the exception. -/
def inferenceResults (outcomes : List (Option String)) : List String :=
  outcomes.filterMap id

/-- process_results in postprocess_batch.py: iterates the physical lines of
results.jsonl with enumerate, skips blank lines (which still advance the
index), and joins each remaining line to metadata[str(line_idx)] (none models
a KeyError). -/
def joinResults (results : List String) (metas : List MetaEntry) :
    List (String × Option MetaEntry) :=
  (results.enum.filter (fun q => ¬ q.2 = "")).map (fun q => (q.2, metas.get? q.1))

/-- process_results stores the metadata entry only when the patient id is
first seen, so routing uses the entry of the FIRST result line carrying that
patient id. -/
def firstMetaFor (metas : List MetaEntry) (pid : String) : Option MetaEntry :=
  (metas.filter (fun m => m.patient_id = pid)).head?

/-- Silo routing in process_results: decided from the single stored metadata
entry, i.e. one image's positive findings. -/
def routeBatch (metas : List MetaEntry) (pid : String) (rand : Nat) : Option String :=
  (firstMetaFor metas pid).map (fun m =>
    if BLIND_SPOT_DISEASE ∈ m.all_pathologies then "Hospital_B"
    else HOSPITALS.getD (rand % HOSPITALS.length) "")

/-- Concrete patient exercising the blind-spot routing: the first image has
no positive Consolidation finding, the second does. -/
def consolidationPatient : ChexpertPatient :=
  { patient_id := "patient00001"
    sex := "Male"
    age := "60"
    images :=
      [ { original_path := "train/patient00001/study1/view1_frontal.jpg"
          pict_name := "study1_view1_frontal"
          positive_findings := ["Edema"]
          negative_findings := ["Consolidation"]
          uncertain_findings := [] },
        { original_path := "train/patient00001/study2/view1_frontal.jpg"
          pict_name := "study2_view1_frontal"
          positive_findings := ["Consolidation"]
          negative_findings := []
          uncertain_findings := [] } ] }

/-- Concrete single-image patients for the batch index round trip. -/
def patientOne : ChexpertPatient :=
  { patient_id := "patient00001"
    sex := "Male"
    age := "60"
    images :=
      [ { original_path := "train/patient00001/study1/view1_frontal.jpg"
          pict_name := "study1_view1_frontal"
          positive_findings := ["Consolidation"]
          negative_findings := []
          uncertain_findings := [] } ] }

def patientTwo : ChexpertPatient :=
  { patient_id := "patient00002"
    sex := "Female"
    age := "40"
    images :=
      [ { original_path := "train/patient00002/study1/view1_frontal.jpg"
          pict_name := "study1_view1_frontal"
          positive_findings := []
          negative_findings := ["Edema"]
          uncertain_findings := [] } ] }

/-! Theorems. -/

theorem rpop_nil {α : Type} : rpop ([] : List α) = none := rfl

theorem rpop_concat {α : Type} (l : List α) (x : α) :
    rpop (l ++ [x]) = some (x, l) := by
  induction l with
  | nil => rfl
  | cons a l ih =>
    show (match rpop (l ++ [x]) with
      | none => some (a, ([] : List α))
      | some (y, rest) => some (y, a :: rest)) = _
    rw [ih]

theorem drainGo_spec (q : List Task) :
    ∀ (n : Nat) (p : List Task), q.length ≤ n → drainGo n q p = (q.reverse, q ++ p) := by
  induction q using List.reverseRecOn with
  | nil =>
    intro n p _
    cases n with
    | zero => rfl
    | succ n => rfl
  | append_singleton l x ih =>
    intro n p hn
    cases n with
    | zero => simp at hn
    | succ n =>
      have hlen : l.length ≤ n := by
        have := hn
        simp only [List.length_append, List.length_singleton] at this
        omega
      show (match rpop (l ++ [x]) with
        | none => (([] : List Task), p)
        | some (t, q2) =>
          let r := drainGo n q2 (t :: p)
          (t :: r.1, r.2)) = _
      rw [rpop_concat]
      show (let r := drainGo n l (x :: p); (x :: r.1, r.2))
        = ((l ++ [x]).reverse, l ++ [x] ++ p)
      rw [ih n (x :: p) hlen]
      simp

theorem drainLoop_spec (q p : List Task) : drainLoop q p = (q.reverse, q ++ p) :=
  drainGo_spec q q.length p (Nat.le_refl _)

theorem im_exec_queues (ops : List BrokerOp) :
    ∀ (b : InMemoryBroker) (c : String),
      (b.exec ops).queues c = pendingFrom c (b.queues c) ops := by
  induction ops with
  | nil => intro b c; rfl
  | cons op ops ih =>
    intro b c
    cases op with
    | enq c2 r v =>
      show ((b.enqueue_query c2 r v).exec ops).queues c = _
      rw [ih]
      show pendingFrom c ((b.enqueue_query c2 r v).queues c) ops
        = pendingFrom c (if c2 = c then b.queues c ++ [⟨r, v⟩] else b.queues c) ops
      by_cases h : c = c2
      · subst h
        simp [InMemoryBroker.enqueue_query]
      · have h2 : ¬ c2 = c := fun hh => h hh.symm
        simp [InMemoryBroker.enqueue_query, h, h2]
    | deq c2 =>
      show ((b.dequeue_queries c2).2.exec ops).queues c = _
      rw [ih]
      show pendingFrom c ((b.dequeue_queries c2).2.queues c) ops
        = pendingFrom c (if c2 = c then [] else b.queues c) ops
      by_cases h : c = c2
      · subst h
        simp [InMemoryBroker.dequeue_queries]
      · have h2 : ¬ c2 = c := fun hh => h hh.symm
        simp [InMemoryBroker.dequeue_queries, h, h2]

theorem redis_exec_queues (ops : List BrokerOp) :
    ∀ (b : RedisBroker) (c : String),
      (b.exec ops).queues c = (pendingFrom c (b.queues c).reverse ops).reverse := by
  induction ops with
  | nil => intro b c; simp [RedisBroker.exec, pendingFrom]
  | cons op ops ih =>
    intro b c
    cases op with
    | enq c2 r v =>
      show ((b.enqueue_query c2 r v).exec ops).queues c = _
      rw [ih]
      show (pendingFrom c ((b.enqueue_query c2 r v).queues c).reverse ops).reverse
        = (pendingFrom c
            (if c2 = c then (b.queues c).reverse ++ [⟨r, v⟩] else (b.queues c).reverse)
            ops).reverse
      by_cases h : c = c2
      · subst h
        simp [RedisBroker.enqueue_query]
      · have h2 : ¬ c2 = c := fun hh => h hh.symm
        simp [RedisBroker.enqueue_query, h, h2]
    | deq c2 =>
      show ((b.dequeue_queries c2).2.exec ops).queues c = _
      rw [ih]
      show (pendingFrom c ((b.dequeue_queries c2).2.queues c).reverse ops).reverse
        = (pendingFrom c (if c2 = c then [] else (b.queues c).reverse) ops).reverse
      by_cases h : c = c2
      · subst h
        simp [RedisBroker.dequeue_queries]
      · have h2 : ¬ c2 = c := fun hh => h hh.symm
        simp [RedisBroker.dequeue_queries, h, h2]

/-- C1: for both broker backends, any client id and any operation sequence
(enqueues for any clients interleaved with dequeues), a dequeue returns
exactly the tasks enqueued for that client since its previous dequeue, in
FIFO enqueue order, and removes them in the same call, so an immediately
repeated dequeue with no intervening enqueue returns the empty sequence. -/
theorem broker_fifo_clear_on_read (ops : List BrokerOp) (c : String) :
    ((InMemoryBroker.init.exec ops).dequeue_queries c).1 = pendingSpec c ops
    ∧ (((InMemoryBroker.init.exec ops).dequeue_queries c).2.dequeue_queries c).1 = []
    ∧ ((RedisBroker.init.exec ops).dequeue_queries c).1 = pendingSpec c ops
    ∧ (((RedisBroker.init.exec ops).dequeue_queries c).2.dequeue_queries c).1 = [] := by
  have him := im_exec_queues ops InMemoryBroker.init c
  have hrd := redis_exec_queues ops RedisBroker.init c
  refine ⟨?_, ?_, ?_, ?_⟩
  · show (InMemoryBroker.init.exec ops).queues c = pendingSpec c ops
    rw [him]; rfl
  · show (if c = c then [] else (InMemoryBroker.init.exec ops).queues c) = []
    simp
  · show (drainLoop ((RedisBroker.init.exec ops).queues c)
      ((RedisBroker.init.exec ops).processing c)).1 = pendingSpec c ops
    rw [hrd, drainLoop_spec]
    simp [pendingSpec, RedisBroker.init]
  · show (drainLoop (if c = c then [] else (RedisBroker.init.exec ops).queues c) _).1 = []
    simp [drainLoop_spec]

theorem savesFor_cons (r : String) (s : SaveOp) (ops : List SaveOp) :
    savesFor r (s :: ops)
      = (if s.request_id = r then [InsightRec.mk s.client_id s.insight] else [])
        ++ savesFor r ops := by
  by_cases h : s.request_id = r <;> simp [savesFor, h]

theorem im_execSaves_insights (ops : List SaveOp) :
    ∀ (b : InMemoryBroker) (r : String),
      (b.execSaves ops).insights r = b.insights r ++ savesFor r ops := by
  induction ops with
  | nil => intro b r; simp [InMemoryBroker.execSaves, savesFor]
  | cons s ops ih =>
    intro b r
    show ((b.save_insight s.request_id s.client_id s.insight).execSaves ops).insights r = _
    rw [ih, savesFor_cons]
    by_cases h : s.request_id = r
    · subst h
      simp [InMemoryBroker.save_insight]
    · have h2 : ¬ r = s.request_id := fun hh => h hh.symm
      simp [InMemoryBroker.save_insight, h, h2]

theorem redis_execSaves_insights (ops : List SaveOp) :
    ∀ (b : RedisBroker) (r : String),
      (b.execSaves ops).insights r = (savesFor r ops).reverse ++ b.insights r := by
  induction ops with
  | nil => intro b r; simp [RedisBroker.execSaves, savesFor]
  | cons s ops ih =>
    intro b r
    show ((b.save_insight s.request_id s.client_id s.insight).execSaves ops).insights r = _
    rw [ih, savesFor_cons]
    by_cases h : s.request_id = r
    · subst h
      simp [RedisBroker.save_insight]
    · have h2 : ¬ r = s.request_id := fun hh => h hh.symm
      simp [RedisBroker.save_insight, h, h2]

/-- C2 counterexample: the claim states get_consensus returns the insights in
submission order for every backend, but after saving the insight of
Hospital_A and then the insight of Hospital_B for req_1, the Redis backend
(LPUSH on save, LRANGE 0 -1 on read) returns Hospital_B first, the reverse of
submission order. -/
theorem redis_consensus_not_submission_order :
    (RedisBroker.init.execSaves
        [⟨"req_1", "Hospital_A", "i1"⟩, ⟨"req_1", "Hospital_B", "i2"⟩]).get_consensus "req_1"
      = [⟨"Hospital_B", "i2"⟩, ⟨"Hospital_A", "i1"⟩]
    ∧ (RedisBroker.init.execSaves
        [⟨"req_1", "Hospital_A", "i1"⟩, ⟨"req_1", "Hospital_B", "i2"⟩]).get_consensus "req_1"
      ≠ savesFor "req_1" [⟨"req_1", "Hospital_A", "i1"⟩, ⟨"req_1", "Hospital_B", "i2"⟩] := by
  constructor
  · rfl
  · decide

/-- C2 amended: for every save sequence and request id, get_consensus is empty
before any save for that id (also for ids never seen, and it is a total
lookup, never an error); afterwards it returns exactly the insight records
saved for that id, the in-memory backend in submission order and the Redis
backend in reverse submission order (most recently saved first). -/
theorem consensus_accumulation (ops : List SaveOp) (r : String) :
    InMemoryBroker.init.get_consensus r = []
    ∧ RedisBroker.init.get_consensus r = []
    ∧ (InMemoryBroker.init.execSaves ops).get_consensus r = savesFor r ops
    ∧ (RedisBroker.init.execSaves ops).get_consensus r = (savesFor r ops).reverse := by
  refine ⟨rfl, rfl, ?_, ?_⟩
  · show (InMemoryBroker.init.execSaves ops).insights r = _
    rw [im_execSaves_insights]
    rfl
  · show (RedisBroker.init.execSaves ops).insights r = _
    rw [redis_execSaves_insights]
    simp [RedisBroker.init]

/-- C3: whenever the retrieval capability yields no text (Python None, and
likewise the other falsy retrieval result, the empty string), sanitize
returns exactly the literal produced by json.dumps of the no-match dict and
the LLM middleware call is never invoked, for every template renderer and
every middleware behaviour. -/
theorem sanitize_no_match_short_circuit (render llm : String → String) :
    sanitize none render llm
        = ("\x7b\"msg\": \"No local matches found.\"\x7d", false)
    ∧ sanitize (some "") render llm
        = ("\x7b\"msg\": \"No local matches found.\"\x7d", false)
    ∧ (sanitize none render llm).2 = false := by
  exact ⟨rfl, rfl, rfl⟩

/-- C5 (code bug): the spec requires ack to be a defined operation on every
broker backend and on the client transport, and both Node.heartbeat_loop and
the server ack endpoint invoke it unconditionally; but in the source only
RedisBroker defines ack.  InMemoryBroker, the BaseTaskBroker interface, the
BaseClientTransport interface, HttpxClientTransport and the simulation
transport all lack the method, so those invocations raise AttributeError. -/
theorem ack_undefined_outside_redis_broker :
    "ack" ∈ nodeTransportCalls
    ∧ "ack" ∈ fastapiServerBrokerCalls
    ∧ "ack" ∈ redisBrokerPyMethods
    ∧ "ack" ∉ inMemoryBrokerPyMethods
    ∧ "ack" ∉ baseTaskBrokerPyMethods
    ∧ "ack" ∉ baseClientTransportPyMethods
    ∧ "ack" ∉ httpxClientTransportPyMethods
    ∧ "ack" ∉ inMemoryClientTransportPyMethods := by
  decide

/-- C6 counterexample: the claim says poll never raises to its caller, but on
a completed HTTP response with a non-2xx status (here 500),
response.raise_for_status() raises HTTPStatusError, which the
except httpx.RequestError clause does not catch. -/
theorem poll_tasks_raises_on_http_error_status :
    poll_tasks (PollOutcome.response 500 none) = Except.error "HTTPStatusError" := by
  simp [poll_tasks]

/-- C6 amended: poll returns the pending_tasks array of a 2xx response
(defaulting to empty when the key is absent) and degrades any network-level
failure of the call (httpx.RequestError) to the empty array without raising;
a completed response with a non-2xx status, however, raises HTTPStatusError
to the caller. -/
theorem poll_tasks_error_handling (status : Nat) (pending : Option (List Task)) :
    poll_tasks PollOutcome.requestError = Except.ok []
    ∧ (200 ≤ status ∧ status ≤ 299 →
        poll_tasks (PollOutcome.response status pending) = Except.ok (pending.getD []))
    ∧ (¬ (200 ≤ status ∧ status ≤ 299) →
        poll_tasks (PollOutcome.response status pending) = Except.error "HTTPStatusError") := by
  refine ⟨rfl, ?_, ?_⟩
  · intro h
    simp [poll_tasks, h]
  · intro h
    simp [poll_tasks, h]

theorem poll_tasks_error_handling_witness :
    poll_tasks (PollOutcome.response 200 (some [])) = Except.ok []
    ∧ poll_tasks (PollOutcome.response 503 none) = Except.error "HTTPStatusError" :=
  ⟨(poll_tasks_error_handling 200 (some [])).2.1 (by decide),
   (poll_tasks_error_handling 503 none).2.2 (by decide)⟩

theorem count_ack_processTask (i j : Nat) (so : SearchOutcome) (sf af : Bool) :
    ((processTask j so sf af).1).count (NodeEv.ack i) = if i = j then 1 else 0 := by
  by_cases h : i = j <;> cases so <;> simp [processTask, h, List.count_cons]

theorem getLast_processTask (i : Nat) (so : SearchOutcome) (sf af : Bool) :
    ((processTask i so sf af).1).getLast? = some (NodeEv.ack i) := by
  cases so <;> simp [processTask]

theorem count_ack_flat (L : List Nat) (B : Nat → SearchOutcome) (sf af : Nat → Bool)
    (j : Nat) :
    ((L.flatMap fun t => (processTask t (B t) (sf t) (af t)).1).count (NodeEv.ack j))
      = L.count j := by
  induction L with
  | nil => rfl
  | cons a L ih =>
    simp only [List.flatMap_cons, List.count_append, ih, count_ack_processTask,
      List.count_cons]
    by_cases h : j = a
    · simp [h]
      omega
    · have h2 : ¬ a = j := fun hh => h hh.symm
      simp [h, h2]

theorem count_range_nat (n i : Nat) :
    (List.range n).count i = if i < n then 1 else 0 := by
  induction n with
  | zero => simp
  | succ n ih =>
    rw [List.range_succ, List.count_append, ih]
    by_cases h : i < n
    · have h2 : i < n + 1 := by omega
      have h3 : ¬ i = n := by omega
      have h4 : ¬ n = i := by omega
      simp [h, h2, h3, h4, List.count_cons]
    · by_cases h5 : i = n
      · subst h5
        simp [h, List.count_cons]
      · have h6 : ¬ i < n + 1 := by omega
        have h7 : ¬ n = i := fun hh => h5 hh.symm
        simp [h, h5, h6, h7, List.count_cons]

theorem runTasksFrom_ok (B : Nat → SearchOutcome) (sf : Nat → Bool) :
    ∀ (k i : Nat),
      runTasksFrom B sf (fun _ => false) i k
        = ((List.range' i k).flatMap fun t => (processTask t (B t) (sf t) false).1,
           none) := by
  intro k
  induction k with
  | zero => intro i; rfl
  | succ k ih =>
    intro i
    show (let r := processTask i (B i) (sf i) false
      if r.2 then (r.1, some i)
      else
        let rest := runTasksFrom B sf (fun _ => false) (i + 1) k
        (r.1 ++ rest.1, rest.2)) = _
    rw [ih (i + 1)]
    simp [processTask, List.range'_succ]

theorem runTasksFrom_firstFail (B : Nat → SearchOutcome) (sf af : Nat → Bool) (i : Nat)
    (hfail : af i = true) (hbelow : ∀ j, j < i → af j = false) :
    ∀ (k i0 : Nat), i0 ≤ i → i < i0 + k →
      runTasksFrom B sf af i0 k
        = ((List.range' i0 (i + 1 - i0)).flatMap
            (fun t => (processTask t (B t) (sf t) (af t)).1), some i) := by
  intro k
  induction k with
  | zero => intro i0 h1 h2; omega
  | succ k ih =>
    intro i0 h1 h2
    show (let r := processTask i0 (B i0) (sf i0) (af i0)
      if r.2 then (r.1, some i0)
      else
        let rest := runTasksFrom B sf af (i0 + 1) k
        (r.1 ++ rest.1, rest.2)) = _
    by_cases hc : i0 = i
    · subst hc
      have : (processTask i0 (B i0) (sf i0) (af i0)).2 = true := hfail
      simp only [this, if_true]
      have hone : i0 + 1 - i0 = 1 := by omega
      rw [hone]
      simp [List.range']
    · have hlt : i0 < i := by omega
      have hf : (processTask i0 (B i0) (sf i0) (af i0)).2 = false := hbelow i0 hlt
      simp only [hf, Bool.false_eq_true, if_false]
      rw [ih (i0 + 1) (by omega) (by omega)]
      have hsucc : i + 1 - i0 = (i - i0) + 1 := by omega
      have hsub : i + 1 - (i0 + 1) = i - i0 := by omega
      rw [hsub, hsucc, List.range'_succ]
      simp

/-- C4: in one polled cycle of Node.heartbeat_loop with a transport whose ack
does not itself raise, the processing trace is exactly the per-task blocks in
cycle order; every delivered task triggers exactly one ack invocation
(whether its search returned a value, returned None or raised, and whether or
not its submit raised), the ack is the last call of its task's block, and the
next task's calls only start after it. -/
theorem node_always_acks (B : Nat → SearchOutcome) (submitFails : Nat → Bool) (n : Nat) :
    (runCycle B submitFails (fun _ => false) n).2 = none
    ∧ (runCycle B submitFails (fun _ => false) n).1
        = (List.range n).flatMap (fun i => (processTask i (B i) (submitFails i) false).1)
    ∧ (∀ i, ((runCycle B submitFails (fun _ => false) n).1).count (NodeEv.ack i)
        = if i < n then 1 else 0)
    ∧ (∀ i j so sf af, ((processTask j so sf af).1).count (NodeEv.ack i)
        = if i = j then 1 else 0)
    ∧ (∀ i so sf af, ((processTask i so sf af).1).getLast? = some (NodeEv.ack i)) := by
  have hrun := runTasksFrom_ok B submitFails n 0
  have hrange : List.range' 0 n = List.range n := (List.range_eq_range' n).symm
  refine ⟨?_, ?_, ?_, ?_, ?_⟩
  · show (runTasksFrom B submitFails (fun _ => false) 0 n).2 = none
    rw [hrun]
  · show (runTasksFrom B submitFails (fun _ => false) 0 n).1 = _
    rw [hrun, hrange]
  · intro i
    show ((runTasksFrom B submitFails (fun _ => false) 0 n).1).count (NodeEv.ack i) = _
    rw [hrun, hrange]
    rw [count_ack_flat (List.range n) B submitFails (fun _ => false) i]
    exact count_range_nat n i
  · intro i j so sf af
    exact count_ack_processTask i j so sf af
  · intro i so sf af
    exact getLast_processTask i so sf af

/-- C10 counterexample: the claim states the failure containment covers only
the injected search capability, under which a transport submit_insight call
that raises would escape the loop and abort the remaining tasks of the cycle.
In the code the submit call sits inside the same try block, so with the
submit of task 0 raising, the cycle still completes: no exception escapes,
task 0 is still acknowledged, and task 1 is fully processed. -/
theorem node_submit_failure_contained :
    runCycle (fun _ => SearchOutcome.found "x") (fun i => i == 0) (fun _ => false) 2
      = ([NodeEv.search 0, NodeEv.submit 0, NodeEv.ack 0,
          NodeEv.search 1, NodeEv.submit 1, NodeEv.ack 1], none)
    ∧ (runCycle (fun _ => SearchOutcome.found "x") (fun i => i == 0)
        (fun _ => false) 2).2 ≠ some 0 := by
  constructor
  · rfl
  · decide

/-- C10 amended: the failure containment of the loop covers the injected
search capability and the transport submit call; an exception raised by the
transport ack (or by poll) is not contained: the first raising ack, at cycle
position i, escapes heartbeat_loop, the tasks after i in that cycle are not
processed (their blocks are absent from the trace, in particular no ack for
them is invoked), and the perpetual loop terminates with that error, as does
an iteration whose poll raises. -/
theorem node_failure_propagation
    (pollFails : Nat → Bool) (taskCount : Nat → Nat) (B2 : Nat → Nat → SearchOutcome)
    (sf2 af2 : Nat → Nat → Bool)
    (B : Nat → SearchOutcome) (submitFails ackFails : Nat → Bool) (n i fuel : Nat) :
    (runCycle B submitFails (fun _ => false) n).2 = none
    ∧ (i < n → (∀ j, j < i → ackFails j = false) → ackFails i = true →
        (runCycle B submitFails ackFails n).2 = some i
        ∧ (runCycle B submitFails ackFails n).1
            = (List.range (i + 1)).flatMap
                (fun t => (processTask t (B t) (submitFails t) (ackFails t)).1)
        ∧ ∀ j, i < j →
            ((runCycle B submitFails ackFails n).1).count (NodeEv.ack j) = 0)
    ∧ (pollFails 0 = true → 1 ≤ fuel →
        heartbeat pollFails taskCount B2 sf2 af2 0 fuel = some (LoopExit.pollError 0))
    ∧ (pollFails 0 = false →
        (runCycle (B2 0) (sf2 0) (af2 0) (taskCount 0)).2 = some i → 1 ≤ fuel →
        heartbeat pollFails taskCount B2 sf2 af2 0 fuel
          = some (LoopExit.ackError 0 i)) := by
  refine ⟨?_, ?_, ?_, ?_⟩
  · show (runTasksFrom B submitFails (fun _ => false) 0 n).2 = none
    rw [runTasksFrom_ok B submitFails n 0]
  · intro hin hbelow hfail
    have hrun := runTasksFrom_firstFail B submitFails ackFails i hfail hbelow n 0
      (by omega) (by omega)
    have hrange : List.range' 0 (i + 1 - 0) = List.range (i + 1) := by
      rw [Nat.sub_zero]
      exact (List.range_eq_range' (i + 1)).symm
    refine ⟨?_, ?_, ?_⟩
    · show (runTasksFrom B submitFails ackFails 0 n).2 = some i
      rw [hrun]
    · show (runTasksFrom B submitFails ackFails 0 n).1 = _
      rw [hrun, hrange]
    · intro j hj
      show ((runTasksFrom B submitFails ackFails 0 n).1).count (NodeEv.ack j) = 0
      rw [hrun, hrange, count_ack_flat, count_range_nat]
      have : ¬ j < i + 1 := by omega
      simp [this]
  · intro hp hf
    cases fuel with
    | zero => omega
    | succ fuel => simp [heartbeat, hp]
  · intro hp hcyc hf
    cases fuel with
    | zero => omega
    | succ fuel => simp [heartbeat, hp, hcyc]

theorem node_failure_propagation_witness :
    (runCycle (fun _ => SearchOutcome.noMatch) (fun _ => false) (fun j => j == 1) 3).2
      = some 1
    ∧ ((runCycle (fun _ => SearchOutcome.noMatch) (fun _ => false)
        (fun j => j == 1) 3).1).count (NodeEv.ack 2) = 0
    ∧ heartbeat (fun _ => true) (fun _ => 0) (fun _ _ => SearchOutcome.noMatch)
        (fun _ _ => false) (fun _ _ => false) 0 5 = some (LoopExit.pollError 0)
    ∧ heartbeat (fun _ => false) (fun _ => 3) (fun _ _ => SearchOutcome.noMatch)
        (fun _ _ => false) (fun _ j => j == 1) 0 5 = some (LoopExit.ackError 0 1) := by
  have hbelow : ∀ j, j < 1 → (j == 1) = false := by
    intro j hj
    have : j = 0 := by omega
    subst this
    rfl
  refine ⟨?_, ?_, ?_, ?_⟩
  · exact ((node_failure_propagation (fun _ => true) (fun _ => 0)
      (fun _ _ => SearchOutcome.noMatch) (fun _ _ => false) (fun _ _ => false)
      (fun _ => SearchOutcome.noMatch) (fun _ => false) (fun j => j == 1) 3 1 5).2.1
      (by decide) hbelow rfl).1
  · exact ((node_failure_propagation (fun _ => true) (fun _ => 0)
      (fun _ _ => SearchOutcome.noMatch) (fun _ _ => false) (fun _ _ => false)
      (fun _ => SearchOutcome.noMatch) (fun _ => false) (fun j => j == 1) 3 1 5).2.1
      (by decide) hbelow rfl).2.2 2 (by decide)
  · exact (node_failure_propagation (fun _ => true) (fun _ => 0)
      (fun _ _ => SearchOutcome.noMatch) (fun _ _ => false) (fun _ _ => false)
      (fun _ => SearchOutcome.noMatch) (fun _ => false) (fun _ => false) 0 0 5).2.2.1
      rfl (by decide)
  · exact (node_failure_propagation (fun _ => false) (fun _ => 3)
      (fun _ _ => SearchOutcome.noMatch) (fun _ _ => false) (fun _ j => j == 1)
      (fun _ => SearchOutcome.noMatch) (fun _ => false) (fun _ => false) 0 1 5).2.2.2
      rfl (by decide) (by decide)

theorem list_sum_div (l : List ℝ) (c : ℝ) :
    (l.map (fun x => x / c)).sum = l.sum / c := by
  induction l with
  | nil => simp
  | cons a l ih => simp [ih, add_div]

theorem sumsq_nonneg (v : List ℝ) : 0 ≤ (v.map (fun x => x ^ 2)).sum := by
  apply List.sum_nonneg
  intro x hx
  obtain ⟨y, _, rfl⟩ := List.mem_map.mp hx
  exact sq_nonneg y

theorem sumsq_pos (v : List ℝ) (h : ∃ x ∈ v, x ≠ 0) :
    0 < (v.map (fun x => x ^ 2)).sum := by
  obtain ⟨x, hx, hxne⟩ := h
  induction v with
  | nil => simp at hx
  | cons a v ih =>
    rcases List.mem_cons.mp hx with rfl | hmem
    · have ha : 0 < x ^ 2 := by positivity
      have hv := sumsq_nonneg v
      simp only [List.map_cons, List.sum_cons]
      linarith
    · have hv := ih hmem
      have ha : 0 ≤ a ^ 2 := sq_nonneg a
      simp only [List.map_cons, List.sum_cons]
      linarith

theorem l2norm_pos (v : List ℝ) (h : ∃ x ∈ v, x ≠ 0) : 0 < l2norm v :=
  Real.sqrt_pos.mpr (sumsq_pos v h)

theorem l2norm_l2normalize (v : List ℝ) (h : ∃ x ∈ v, x ≠ 0) :
    l2norm (l2normalize v) = 1 := by
  have hpos := l2norm_pos v h
  have hS := sumsq_pos v h
  unfold l2norm l2normalize
  rw [List.map_map]
  have hsq : ((fun x => x ^ 2) ∘ fun x => x / l2norm v)
      = fun x => x ^ 2 / l2norm v ^ 2 := by
    funext x
    simp [div_pow]
  rw [hsq]
  have hdiv : (v.map (fun x => x ^ 2 / l2norm v ^ 2)).sum
      = (v.map (fun x => x ^ 2)).sum / l2norm v ^ 2 := by
    have := list_sum_div (v.map (fun x => x ^ 2)) (l2norm v ^ 2)
    rw [List.map_map] at this
    exact this
  rw [hdiv]
  have hnormsq : l2norm v ^ 2 = (v.map (fun x => x ^ 2)).sum := by
    unfold l2norm
    exact Real.sq_sqrt (le_of_lt hS)
  rw [hnormsq, div_self (ne_of_gt hS), Real.sqrt_one]

theorem l2normalize_length (v : List ℝ) : (l2normalize v).length = v.length := by
  simp [l2normalize]

/-- C7: for every non-zero 768-entry text vector and non-zero 1152-entry
image vector, the fused vector has length 1920, is the concatenation of the
normalised image vector followed by the normalised text vector (image first),
and each modality's slice of the result has Euclidean norm exactly 1 (the
floating tolerance of the claim is idealised away by computing over the
reals). -/
theorem fuse_shape_and_normalization (T I : List ℝ)
    (hT : T.length = 768) (hI : I.length = 1152)
    (hTne : ∃ x ∈ T, x ≠ 0) (hIne : ∃ x ∈ I, x ≠ 0) :
    (fuse_vectors T I).length = 1920
    ∧ fuse_vectors T I = l2normalize I ++ l2normalize T
    ∧ l2norm ((fuse_vectors T I).take 1152) = 1
    ∧ l2norm ((fuse_vectors T I).drop 1152) = 1 := by
  have hIlen : (l2normalize I).length = 1152 := by rw [l2normalize_length, hI]
  have htake : (fuse_vectors T I).take 1152 = l2normalize I := by
    unfold fuse_vectors
    rw [List.take_left' hIlen]
  have hdrop : (fuse_vectors T I).drop 1152 = l2normalize T := by
    unfold fuse_vectors
    rw [List.drop_left' hIlen]
  refine ⟨?_, rfl, ?_, ?_⟩
  · unfold fuse_vectors
    rw [List.length_append, l2normalize_length, l2normalize_length, hT, hI]
  · rw [htake]
    exact l2norm_l2normalize I hIne
  · rw [hdrop]
    exact l2norm_l2normalize T hTne

theorem fuse_shape_and_normalization_witness :
    (List.replicate 768 (1 : ℝ)).length = 768
    ∧ (List.replicate 1152 (1 : ℝ)).length = 1152
    ∧ ((fuse_vectors (List.replicate 768 (1 : ℝ)) (List.replicate 1152 (1 : ℝ))).length
        = 1920
      ∧ fuse_vectors (List.replicate 768 (1 : ℝ)) (List.replicate 1152 (1 : ℝ))
          = l2normalize (List.replicate 1152 (1 : ℝ))
            ++ l2normalize (List.replicate 768 (1 : ℝ))
      ∧ l2norm ((fuse_vectors (List.replicate 768 (1 : ℝ))
          (List.replicate 1152 (1 : ℝ))).take 1152) = 1
      ∧ l2norm ((fuse_vectors (List.replicate 768 (1 : ℝ))
          (List.replicate 1152 (1 : ℝ))).drop 1152) = 1) :=
  ⟨List.length_replicate 768 1, List.length_replicate 1152 1,
   fuse_shape_and_normalization (List.replicate 768 (1 : ℝ))
     (List.replicate 1152 (1 : ℝ))
     (List.length_replicate 768 1) (List.length_replicate 1152 1)
     ⟨1, List.mem_replicate.mpr ⟨by norm_num, rfl⟩, one_ne_zero⟩
     ⟨1, List.mem_replicate.mpr ⟨by norm_num, rfl⟩, one_ne_zero⟩⟩

/-- C8 (code bug): the per-record generator routes by the union of positive
findings over ALL of a patient's images, so a patient with any positive
Consolidation finding always goes to Hospital_B; but the batch path stores
per-image positive findings in the metadata field all_pathologies and
process_results routes the whole patient by the entry of the FIRST result
line only.  For the concrete patient whose first image is only Edema-positive
and whose second image is Consolidation-positive, the per-record path always
routes to Hospital_B while the batch path consults ["Edema"], falls through
to random.choice, and with random index 0 places the patient in Hospital_A. -/
theorem blind_spot_routing_diverges_in_batch_path :
    BLIND_SPOT_DISEASE ∈ allPatientPathologies consolidationPatient
    ∧ (∀ rand, routePerRecord consolidationPatient rand = "Hospital_B")
    ∧ routeBatch (preprocessMeta [consolidationPatient]) "patient00001" 0
        = some "Hospital_A"
    ∧ "Hospital_A" ≠ "Hospital_B" := by
  have hmem : BLIND_SPOT_DISEASE ∈ allPatientPathologies consolidationPatient := by
    decide
  refine ⟨hmem, ?_, ?_, ?_⟩
  · intro rand
    unfold routePerRecord
    rw [if_pos hmem]
  · decide
  · decide

/-- C9 (code bug): the first half of the claim holds — preprocessing writes
exactly one metadata entry per zero-based line index (the keys of the map are
exactly the indices 0..n-1, each exactly once, and the values are the entries
in line order).  The join half fails: run_inference writes NO results line
for a request whose POST raises a network exception, so with request 0
failing and request 1 answering r1, the single results line (produced by
request 1, patientTwo) is joined by its physical line index 0 to the metadata
entry of request 0 and is attributed to patientOne. -/
theorem batch_index_roundtrip_misalignment (patients : List ChexpertPatient) :
    (metadataMap patients).map Prod.fst = List.range (preprocessMeta patients).length
    ∧ (metadataMap patients).map Prod.snd = preprocessMeta patients
    ∧ (∀ i, ((metadataMap patients).map Prod.fst).count i
        = if i < (preprocessMeta patients).length then 1 else 0)
    ∧ (joinResults (inferenceResults [none, some "r1"])
          (preprocessMeta [patientOne, patientTwo])).map
            (fun q => (q.1, q.2.map (fun m => m.patient_id)))
        = [("r1", some "patient00001")]
    ∧ ((preprocessMeta [patientOne, patientTwo]).get? 1).map (fun m => m.patient_id)
        = some "patient00002" := by
  refine ⟨List.enum_map_fst _, List.enum_map_snd _, ?_, ?_, ?_⟩
  · intro i
    show ((preprocessMeta patients).enum.map Prod.fst).count i = _
    rw [List.enum_map_fst]
    exact count_range_nat _ i
  · decide
  · decide

end Aethelgard
